import Mathlib

/-!
Verification of the m-lab/etl core against its specification.

Each section embeds one Go component as executable Lean definitions:

* `Row`      — row/row.go (`Buffer`, `Stats`, `ActiveStats`)
* `Storage`  — storage.go (`ETLSource.NextTest` retry loops)
* `Dedup`    — dedup.go (`WaitForJob`, `checkDetails`)
* `EtlPath`  — etl/globals.go (`TaskPattern`, `ValidateTestPath`)
* `SwitchP`  — parser/switch.go (`getSummaryFromSample`)
* `Sidestream` — the sidestream parser (`ParseKHeader`)

Machine integers are modelled as `Int`/`Nat` (no overflow is reachable at the
magnitudes involved), Go `float32` arithmetic is modelled exactly by dyadic
rationals with 24-bit significands, and fallible or panicking code returns
`Option`/`Except`-style results.
-/

namespace Row

/-- The `Buffer` of row/row.go: a size bound (`size`, the `N` of the spec) and
the current backing slice (`rows`).  Rows are opaque values of type `α`; the
mutex is irrelevant to the sequential functional behaviour. -/
structure Buffer (α : Type) where
  size : Nat
  rows : List α
deriving Repr, DecidableEq

/-- `NewBuffer` of row/row.go: an empty buffer with the given size bound. -/
def NewBuffer (α : Type) (size : Nat) : Buffer α := ⟨size, []⟩

/-- `Buffer.Append` of row/row.go: if `len(buf.rows) < buf.size`, append the row
and return the empty batch (`nil`); otherwise start a fresh backing slice
holding only `row` and return the prior contents.  Returns (new buffer state,
returned batch). -/
def Buffer.Append (buf : Buffer α) (row : α) : Buffer α × List α :=
  if buf.rows.length < buf.size then (⟨buf.size, buf.rows ++ [row]⟩, [])
  else (⟨buf.size, [row]⟩, buf.rows)

/-- `Buffer.Reset` of row/row.go: swap in an empty slice and return the prior
contents. -/
def Buffer.Reset (buf : Buffer α) : Buffer α × List α :=
  (⟨buf.size, []⟩, buf.rows)

/-- Run a sequence of `Append` calls in order, collecting the returned batches
in call order. -/
def runAppends (buf : Buffer α) : List α → Buffer α × List (List α)
  | [] => (buf, [])
  | x :: xs =>
    ((runAppends (buf.Append x).1 xs).1,
      (buf.Append x).2 :: (runAppends (buf.Append x).1 xs).2)

/-- The `Stats` record of row/row.go.  Go `int` fields are modelled as `Int`
(the code itself can drive them negative, which is what the invariant claims
rule out under legal calls). -/
structure Stats where
  Buffered : Int
  Pending : Int
  Committed : Int
  Failed : Int
deriving Repr, DecidableEq

/-- `Stats.Total` of row/row.go. -/
def Stats.Total (s : Stats) : Int :=
  s.Buffered + s.Pending + s.Committed + s.Failed

/-- One mutating call on `ActiveStats`: `Inc`, `MoveToPending(n)`, or
`Done(n, err)` (with `fail = (err ≠ nil)`).  The `n` arguments are slice
lengths at every call site, hence naturals. -/
inductive StatsOp
  | inc
  | moveToPending (n : Nat)
  | done (n : Nat) (fail : Bool)
deriving Repr, DecidableEq

/-- The state change of one `ActiveStats` call (row/row.go): `Inc` increments
`Buffered`; `MoveToPending` moves `n` from `Buffered` to `Pending`; `Done`
moves `n` from `Pending` to `Failed` (if `err != nil`) or `Committed`.  The
`BROKEN` log lines do not alter the state. -/
def applyOp (s : Stats) : StatsOp → Stats
  | .inc => ⟨s.Buffered + 1, s.Pending, s.Committed, s.Failed⟩
  | .moveToPending n => ⟨s.Buffered - n, s.Pending + n, s.Committed, s.Failed⟩
  | .done n fail =>
    if fail then ⟨s.Buffered, s.Pending - n, s.Committed, s.Failed + n⟩
    else ⟨s.Buffered, s.Pending - n, s.Committed + n, s.Failed⟩

/-- Legality of a single call in a given state, following the claim: a
`MoveToPending n` needs `n` at most the current `Buffered`, a `Done n _` needs
`n` at most the current `Pending`. -/
def legalOp (s : Stats) : StatsOp → Bool
  | .inc => true
  | .moveToPending n => (n : Int) ≤ s.Buffered
  | .done n _ => (n : Int) ≤ s.Pending

/-- A whole call sequence is legal when each call is legal in the state the
previous calls produced. -/
def legalTrace : Stats → List StatsOp → Bool
  | _, [] => true
  | s, op :: ops => legalOp s op && legalTrace (applyOp s op) ops

/-- All states visited by a call sequence, the initial one included. -/
def statesOf : Stats → List StatsOp → List Stats
  | s, [] => [s]
  | s, op :: ops => s :: statesOf (applyOp s op) ops

/-- All four counters of a state are non-negative. -/
def Stats.nonneg (s : Stats) : Prop :=
  0 ≤ s.Buffered ∧ 0 ≤ s.Pending ∧ 0 ≤ s.Committed ∧ 0 ≤ s.Failed

instance (s : Stats) : Decidable s.nonneg := by
  unfold Stats.nonneg; infer_instance

/-- The head of `statesOf` is always the start state. -/
theorem statesOf_head (ops : List StatsOp) (s : Stats) :
    ∃ t, statesOf s ops = s :: t := by
  cases ops <;> exact ⟨_, rfl⟩

/-- One legal call preserves non-negativity of all four counters. -/
theorem applyOp_nonneg (s : Stats) (op : StatsOp)
    (hs : s.nonneg) (hop : legalOp s op = true) : (applyOp s op).nonneg := by
  obtain ⟨h1, h2, h3, h4⟩ := hs
  cases op with
  | inc =>
    simp only [applyOp, Stats.nonneg]
    omega
  | moveToPending n =>
    simp only [legalOp, decide_eq_true_eq] at hop
    simp only [applyOp, Stats.nonneg]
    omega
  | done n fail =>
    simp only [legalOp, decide_eq_true_eq] at hop
    cases fail <;> simp only [applyOp, Stats.nonneg, Bool.false_eq_true,
      if_true, if_false, ite_true, ite_false] <;> omega

/-- `Total` never decreases across a single call (legality not even needed). -/
theorem total_mono (s : Stats) (op : StatsOp) :
    s.Total ≤ (applyOp s op).Total := by
  cases op with
  | inc =>
    simp only [applyOp, Stats.Total]
    omega
  | moveToPending n =>
    simp only [applyOp, Stats.Total]
    omega
  | done n fail =>
    cases fail <;> simp only [applyOp, Stats.Total, Bool.false_eq_true,
      if_true, if_false, ite_true, ite_false] <;> omega

/-- Core invariant of the `Buffer`: threading any append sequence through a
buffer of bound `N ≥ 1` keeps at most `N` rows buffered, emits only batches of
at most `N` rows, and loses or reorders nothing. -/
theorem runAppends_spec {α : Type} (N : Nat) (hN : 1 ≤ N) :
    ∀ (xs : List α) (buf : Buffer α), buf.size = N → buf.rows.length ≤ N →
      (runAppends buf xs).1.size = N ∧
      (runAppends buf xs).1.rows.length ≤ N ∧
      (runAppends buf xs).2.flatten ++ (runAppends buf xs).1.rows = buf.rows ++ xs ∧
      ∀ l ∈ (runAppends buf xs).2, l.length ≤ N := by
  intro xs
  induction xs with
  | nil =>
    intro buf h1 h2
    exact ⟨h1, h2, by simp [runAppends], by simp [runAppends]⟩
  | cons x xs ih =>
    intro buf h1 h2
    by_cases hlt : buf.rows.length < buf.size
    · have hA : buf.Append x = (⟨buf.size, buf.rows ++ [x]⟩, []) := by
        simp [Buffer.Append, hlt]
      have hres := ih ⟨buf.size, buf.rows ++ [x]⟩ h1
        (by simp; omega)
      refine ⟨?_, ?_, ?_, ?_⟩
      · simpa [runAppends, hA] using hres.1
      · simpa [runAppends, hA] using hres.2.1
      · have h3 := hres.2.2.1
        simp only [runAppends, hA] at *
        simpa using h3
      · intro l hl
        simp only [runAppends, hA, List.mem_cons] at hl
        rcases hl with h | h
        · simp [h]
        · exact hres.2.2.2 l h
    · have hA : buf.Append x = (⟨buf.size, [x]⟩, buf.rows) := by
        simp [Buffer.Append, hlt]
      have hres := ih ⟨buf.size, [x]⟩ h1 (by simpa using hN)
      refine ⟨?_, ?_, ?_, ?_⟩
      · simpa [runAppends, hA] using hres.1
      · simpa [runAppends, hA] using hres.2.1
      · have h3 := hres.2.2.1
        simp only [runAppends, hA] at *
        simp [h3]
      · intro l hl
        simp only [runAppends, hA, List.mem_cons] at hl
        rcases hl with h | h
        · subst h; exact h2
        · exact hres.2.2.2 l h

/-- Dropping the empty batches does not change the concatenation. -/
theorem flatten_filter_nonempty {α : Type} (ls : List (List α)) :
    (ls.filter (fun l => !l.isEmpty)).flatten = ls.flatten := by
  induction ls with
  | nil => rfl
  | cons h t ih => cases h <;> simp [List.filter, ih]

end Row

/-- C7 (counterexample): on a buffer of capacity `N = 0` (the size the code
uses for the `invalid` datatype), the second `Append` returns the batch `[1]`
of length `1 > N = 0`, refuting the claimed batch-length bound at `N = 0`. -/
theorem C7_counterexample :
    [1] ∈ (Row.runAppends (Row.NewBuffer Nat 0) [1, 2]).2 ∧
      ¬ ([1] : List Nat).length ≤ 0 := by
  decide

/-- C7 (amended, proved): for every capacity `N ≥ 1` and append sequence `xs`,
the concatenation in call order of the non-empty batches returned by `Append`,
followed by the batch returned by a final `Reset`, equals `xs`, and no returned
batch — `Reset`'s included — is longer than `N`.  (At `N = 0` the concatenation
law still holds but a batch of length 1 is returned, see the counterexample.) -/
theorem C7_buffer_batches {α : Type} (N : Nat) (hN : 1 ≤ N) (xs : List α) :
    ((((Row.runAppends (Row.NewBuffer α N) xs).2.filter (fun l => !l.isEmpty)).flatten
        ++ ((Row.runAppends (Row.NewBuffer α N) xs).1.Reset).2) = xs) ∧
    (∀ l ∈ (Row.runAppends (Row.NewBuffer α N) xs).2, l.length ≤ N) ∧
    ((Row.runAppends (Row.NewBuffer α N) xs).1.Reset).2.length ≤ N := by
  have h := Row.runAppends_spec N hN xs (Row.NewBuffer α N) rfl (by simp [Row.NewBuffer])
  refine ⟨?_, h.2.2.2, ?_⟩
  · rw [Row.flatten_filter_nonempty]
    have h3 := h.2.2.1
    simp only [Row.NewBuffer, List.nil_append] at h3
    simpa [Row.Buffer.Reset] using h3
  · simpa [Row.Buffer.Reset] using h.2.1

/-- C7 witness: the amended theorem applied at `N = 2`, `xs = [1,2,3,4,5]`. -/
theorem C7_buffer_batches_witness :
    ((((Row.runAppends (Row.NewBuffer Nat 2) [1,2,3,4,5]).2.filter
          (fun l => !l.isEmpty)).flatten
        ++ ((Row.runAppends (Row.NewBuffer Nat 2) [1,2,3,4,5]).1.Reset).2)
        = [1,2,3,4,5]) ∧
    (∀ l ∈ (Row.runAppends (Row.NewBuffer Nat 2) [1,2,3,4,5]).2, l.length ≤ 2) ∧
    ((Row.runAppends (Row.NewBuffer Nat 2) [1,2,3,4,5]).1.Reset).2.length ≤ 2 :=
  C7_buffer_batches 2 (by decide) [1,2,3,4,5]

/-- C8: starting from non-negative stats, along any legal call sequence
(`Inc` freely; `MoveToPending n` only with `n ≤ Buffered`; `Done n err` only
with `n ≤ Pending`) every visited state keeps all four counters non-negative,
and `Total` never decreases from each state to the next. -/
theorem C8_stats_invariant (s0 : Row.Stats) (ops : List Row.StatsOp)
    (h0 : s0.nonneg) (hl : Row.legalTrace s0 ops = true) :
    (∀ s ∈ Row.statesOf s0 ops, s.nonneg) ∧
    (Row.statesOf s0 ops).Chain' (fun a b => a.Total ≤ b.Total) := by
  induction ops generalizing s0 with
  | nil =>
    refine ⟨?_, by simp [Row.statesOf]⟩
    intro s hs
    simp only [Row.statesOf, List.mem_singleton] at hs
    exact hs ▸ h0
  | cons op ops ih =>
    have hl' : Row.legalOp s0 op = true ∧
        Row.legalTrace (Row.applyOp s0 op) ops = true := by
      simpa [Row.legalTrace, Bool.and_eq_true] using hl
    have hstep := Row.applyOp_nonneg s0 op h0 hl'.1
    have hrest := ih (Row.applyOp s0 op) hstep hl'.2
    have hcons : Row.statesOf s0 (op :: ops)
        = s0 :: Row.statesOf (Row.applyOp s0 op) ops := rfl
    constructor
    · intro s hs
      rw [hcons] at hs
      rcases List.mem_cons.mp hs with h | h
      · exact h ▸ h0
      · exact hrest.1 s h
    · obtain ⟨t, ht⟩ := Row.statesOf_head ops (Row.applyOp s0 op)
      rw [hcons, ht, List.chain'_cons]
      exact ⟨Row.total_mono s0 op, ht ▸ hrest.2⟩

/-- C8 witness: the invariant applied to a concrete legal trace from the zero
state: two `Inc`s, `MoveToPending 2`, `Done 1 ok`, `Done 1 failed`. -/
theorem C8_stats_invariant_witness :
    (∀ s ∈ Row.statesOf ⟨0, 0, 0, 0⟩
        [.inc, .inc, .moveToPending 2, .done 1 false, .done 1 true], s.nonneg) ∧
    (Row.statesOf ⟨0, 0, 0, 0⟩
        [.inc, .inc, .moveToPending 2, .done 1 false, .done 1 true]).Chain'
      (fun a b => a.Total ≤ b.Total) :=
  C8_stats_invariant ⟨0, 0, 0, 0⟩
    [.inc, .inc, .moveToPending 2, .done 1 false, .done 1 true]
    (by decide) (by decide)

namespace Storage

/-- Substring test, mirroring Go's `strings.Contains` on byte/char lists. -/
def isPrefixOfChars : List Char → List Char → Bool
  | [], _ => true
  | _ :: _, [] => false
  | a :: as, b :: bs => a = b && isPrefixOfChars as bs

/-- `strings.Contains(hay, pat)`. -/
def strContains (hay pat : String) : Bool :=
  go hay.data
where
  go : List Char → Bool
    | [] => pat.data.isEmpty
    | c :: cs => isPrefixOfChars pat.data (c :: cs) || go cs

/-- The tar header fields `NextTest` looks at: `Name`, `Size`, and whether
`Typeflag == tar.TypeReg`. -/
structure Header where
  Name : String
  Size : Int
  TypeflagReg : Bool
deriving Repr, DecidableEq

/-- Result of one call to the underlying `TarReader.Next()`: a header, `io.EOF`,
or another error carrying its message string. -/
inductive NextRes
  | hdr (h : Header)
  | eof
  | err (msg : String)
deriving Repr, DecidableEq

/-- The error kinds `NextTest` can surface: `io.EOF`, `ErrOversizeFile`, or a
wrapped storage error. -/
inductive ErrK
  | eof
  | oversize
  | other (msg : String)
deriving Repr, DecidableEq

/-- Outcome of one `nextHeader`-style attempt: the header if any, the `retry`
flag, the error if any, and the `GCSRetryCount` label the metric branch picked
(empty when no metric was incremented). -/
structure Attempt (α : Type) where
  val : Option α
  retry : Bool
  err : Option ErrK
  metricLabel : String
deriving Repr, DecidableEq

/-- `ETLSource.nextHeader` of storage.go: `io.EOF` comes back with
`retry = false`; every other error — the `"unexpected EOF"` ones included,
which differ only in the metric label — comes back with `retry = true`. -/
def nextHeader (res : NextRes) : Attempt Header :=
  match res with
  | .hdr h => ⟨some h, true, none, ""⟩
  | .eof => ⟨none, false, some .eof, ""⟩
  | .err m =>
    ⟨none, true, some (.other m),
      if strContains m "unexpected EOF" then "unexpected EOF" else "other"⟩

/-- Bytes of a test payload (opaque to the retry logic). -/
abbrev Bytes := List Nat

/-- Result of one body-read attempt inside `nextData`: the payload, or one of
the failure shapes storage.go distinguishes.  The `zip` shapes can only arise
for entry names whose lower-cased form ends in `gz` (the gzip branch). -/
inductive BodyRes
  | ok (data : Bytes)
  | zipEOF
  | zipErr (msg : String)
  | readErr (msg : String)
deriving Repr, DecidableEq

/-- `ETLSource.nextData` of storage.go: `gzip.NewReader` returning `io.EOF`
gives `retry = false`; any other gzip-open or read error gives `retry = true`
(the `"stream error"` test chooses only the metric label). -/
def nextData (res : BodyRes) : Attempt Bytes :=
  match res with
  | .ok d => ⟨some d, false, none, ""⟩
  | .zipEOF => ⟨none, false, some .eof, ""⟩
  | .zipErr m => ⟨none, true, some (.other m), "zipReaderError"⟩
  | .readErr m =>
    ⟨none, true, some (.other m),
      if strContains m "stream error" then "stream error" else "other error"⟩

/-- Outcome of a retry loop: the value or the surfaced error, the sleeps
executed in order, and the number of attempts made. -/
inductive LoopOut (α : Type)
  | ok (a : α) (sleeps : List Nat) (trials : Nat)
  | fail (e : ErrK) (sleeps : List Nat) (trials : Nat)
deriving Repr, DecidableEq

/-- Sleeps of a loop outcome. -/
def LoopOut.sleeps : LoopOut α → List Nat
  | .ok _ s _ => s
  | .fail _ s _ => s

/-- Attempt count of a loop outcome. -/
def LoopOut.trials : LoopOut α → Nat
  | .ok _ _ t => t
  | .fail _ _ t => t

/-- The header-acquisition loop of `ETLSource.NextTest` (storage.go):

    trial := 0; delay := rr.RetryBaseTime
    for { trial++
          h, retry, err = rr.nextHeader(trial)
          if err == nil { break }
          if !retry || trial >= 10 { return "", nil, err }
          delay *= 2
          time.Sleep(delay) }

`next t` is the result of the `t`-th call to the underlying tar reader's
`Next()`.  The `fuel` argument only bounds the recursion; with `fuel = 10` the
`trial >= 10` exit fires first, so the fuel-out branch is unreachable. -/
def hdrGo (next : Nat → NextRes) : Nat → Nat → Nat → List Nat → LoopOut Header
  | 0, trial, _, sleeps => .fail (.other "out of fuel") sleeps.reverse trial
  | fuel + 1, trial, delay, sleeps =>
    let t := trial + 1
    let a := nextHeader (next t)
    match a.err, a.val with
    | none, some h => .ok h sleeps.reverse t
    | none, none => .fail (.other "impossible") sleeps.reverse t
    | some e, _ =>
      if a.retry = false ∨ 10 ≤ t then .fail e sleeps.reverse t
      else hdrGo next fuel t (delay * 2) (delay * 2 :: sleeps)

/-- The body-acquisition loop of `ETLSource.NextTest` (storage.go).  Identical
retry scheme, but on `!retry || trial >= 10` the Go code `break`s out of the
loop instead of returning, so the error is dropped and only the (nil) data
remains; `NextTest` then returns `h.Name, data, nil`. -/
def bodyGo (bodyF : Nat → BodyRes) : Nat → Nat → Nat → List Nat →
    Option Bytes × List Nat × Nat
  | 0, trial, _, sleeps => (none, sleeps.reverse, trial)
  | fuel + 1, trial, delay, sleeps =>
    let t := trial + 1
    let a := nextData (bodyF t)
    match a.err with
    | none => (a.val, sleeps.reverse, t)
    | some _ =>
      if a.retry = false ∨ 10 ≤ t then (a.val, sleeps.reverse, t)
      else bodyGo bodyF fuel t (delay * 2) (delay * 2 :: sleeps)

/-- What `NextTest` returns, together with the sleeps it performed and how many
times it invoked the tar reader's `Next` and the body read. -/
structure TestResult where
  name : String
  data : Option Bytes
  err : Option ErrK
  sleeps : List Nat
  hdrCalls : Nat
  bodyCalls : Nat
deriving Repr, DecidableEq

/-- `ETLSource.NextTest(maxSize)` of storage.go, driven by the two attempt
oracles.  After a successful header: oversize entries return
`ErrOversizeFile` with no data; non-regular entries return `(name, nil, nil)`;
otherwise the body loop runs and its result is returned with a nil error. -/
def NextTest (next : Nat → NextRes) (bodyF : Nat → BodyRes)
    (base : Nat) (maxSize : Int) : TestResult :=
  match hdrGo next 10 0 base [] with
  | .fail e s t => ⟨"", none, some e, s, t, 0⟩
  | .ok h s t =>
    if maxSize < h.Size then ⟨h.Name, none, some .oversize, s, t, 0⟩
    else if h.TypeflagReg = false then ⟨h.Name, none, none, s, t, 0⟩
    else
      let r := bodyGo bodyF 10 0 base []
      ⟨h.Name, r.1, none, s ++ r.2.1, t, r.2.2⟩

end Storage

namespace Storage

/-- The attempt counter of the header loop never goes below the start trial. -/
theorem hdrGo_trials_ge (next : Nat → NextRes) :
    ∀ fuel trial delay sleeps,
      trial ≤ (hdrGo next fuel trial delay sleeps).trials := by
  intro fuel
  induction fuel with
  | zero => intro trial delay sleeps; simp [hdrGo, LoopOut.trials]
  | succ f ih =>
    intro trial delay sleeps
    cases hn : next (trial + 1) with
    | hdr h => simp [hdrGo, nextHeader, hn, LoopOut.trials]
    | eof => simp [hdrGo, nextHeader, hn, LoopOut.trials]
    | err m =>
      by_cases h10 : 10 ≤ trial + 1
      · simp [hdrGo, nextHeader, hn, h10, LoopOut.trials]
      · have hrec := ih (trial + 1) (delay * 2) (delay * 2 :: sleeps)
        simp only [hdrGo, nextHeader, hn, h10, or_false, if_false,
          Bool.true_eq_false, false_or, if_neg]
        omega

/-- With fuel left, the header loop makes at least one (further) attempt. -/
theorem hdrGo_trials_succ (next : Nat → NextRes) (fuel trial delay : Nat)
    (sleeps : List Nat) :
    trial + 1 ≤ (hdrGo next (fuel + 1) trial delay sleeps).trials := by
  cases hn : next (trial + 1) with
  | hdr h => simp [hdrGo, nextHeader, hn, LoopOut.trials]
  | eof => simp [hdrGo, nextHeader, hn, LoopOut.trials]
  | err m =>
    by_cases h10 : 10 ≤ trial + 1
    · simp [hdrGo, nextHeader, hn, h10, LoopOut.trials]
    · have hrec := hdrGo_trials_ge next fuel (trial + 1) (delay * 2)
        (delay * 2 :: sleeps)
      simp only [hdrGo, nextHeader, hn, h10, or_false, if_false,
        Bool.true_eq_false, false_or, if_neg]
      omega

/-- The header loop only ever adds to the sleeps accumulated so far. -/
theorem hdrGo_sleeps_acc (next : Nat → NextRes) :
    ∀ fuel trial delay sleeps, ∃ r,
      (hdrGo next fuel trial delay sleeps).sleeps = sleeps.reverse ++ r := by
  intro fuel
  induction fuel with
  | zero => intro trial delay sleeps; exact ⟨[], by simp [hdrGo, LoopOut.sleeps]⟩
  | succ f ih =>
    intro trial delay sleeps
    cases hn : next (trial + 1) with
    | hdr h => exact ⟨[], by simp [hdrGo, nextHeader, hn, LoopOut.sleeps]⟩
    | eof => exact ⟨[], by simp [hdrGo, nextHeader, hn, LoopOut.sleeps]⟩
    | err m =>
      by_cases h10 : 10 ≤ trial + 1
      · exact ⟨[], by simp [hdrGo, nextHeader, hn, h10, LoopOut.sleeps]⟩
      · obtain ⟨r, hr⟩ := ih (trial + 1) (delay * 2) (delay * 2 :: sleeps)
        refine ⟨delay * 2 :: r, ?_⟩
        simp only [hdrGo, nextHeader, hn, h10, or_false, if_false,
          Bool.true_eq_false, false_or, if_neg]
        rw [hr]
        simp

end Storage

namespace Storage

/-- The sleep sequence the loops actually produce when the base delay is
`base`: `[2·base, 4·base, …, 2^k·base]` (the delay is doubled *before* each
sleep). -/
def geomSleeps (base k : Nat) : List Nat :=
  (List.range k).map fun i => base * 2 ^ (i + 1)

theorem geomSleeps_snoc (base j : Nat) :
    geomSleeps base (j + 1) = geomSleeps base j ++ [base * 2 ^ (j + 1)] := by
  simp [geomSleeps, List.range_succ]

/-- Loop invariant: starting the header loop at trial `j` with delay
`base · 2^j` and the first `j` doubled sleeps already accumulated, the final
sleep list is `geomSleeps base k` for some `k ≥ j`. -/
theorem hdrGo_sleeps_geom (next : Nat → NextRes) (base : Nat) :
    ∀ fuel j, ∃ k,
      (hdrGo next fuel j (base * 2 ^ j) (geomSleeps base j).reverse).sleeps
        = geomSleeps base k := by
  intro fuel
  induction fuel with
  | zero => intro j; exact ⟨j, by simp [hdrGo, LoopOut.sleeps]⟩
  | succ f ih =>
    intro j
    cases hn : next (j + 1) with
    | hdr h => exact ⟨j, by simp [hdrGo, nextHeader, hn, LoopOut.sleeps]⟩
    | eof => exact ⟨j, by simp [hdrGo, nextHeader, hn, LoopOut.sleeps]⟩
    | err m =>
      by_cases h10 : 10 ≤ j + 1
      · exact ⟨j, by simp [hdrGo, nextHeader, hn, h10, LoopOut.sleeps]⟩
      · obtain ⟨k, hk⟩ := ih (j + 1)
        refine ⟨k, ?_⟩
        have hacc : base * 2 ^ j * 2 :: (geomSleeps base j).reverse
            = (geomSleeps base (j + 1)).reverse := by
          rw [geomSleeps_snoc]
          simp [pow_succ]
          ring_nf
        have hdel : base * 2 ^ j * 2 = base * 2 ^ (j + 1) := by ring
        simp only [hdrGo, nextHeader, hn, h10, or_false, if_false,
          Bool.true_eq_false, false_or, if_neg]
        rw [hacc, hdel]
        exact hk

/-- Same invariant for the body loop. -/
theorem bodyGo_sleeps_geom (bodyF : Nat → BodyRes) (base : Nat) :
    ∀ fuel j, ∃ k,
      (bodyGo bodyF fuel j (base * 2 ^ j) (geomSleeps base j).reverse).2.1
        = geomSleeps base k := by
  intro fuel
  induction fuel with
  | zero => intro j; exact ⟨j, by simp [bodyGo]⟩
  | succ f ih =>
    intro j
    cases hn : bodyF (j + 1) with
    | ok d => exact ⟨j, by simp [bodyGo, nextData, hn]⟩
    | zipEOF => exact ⟨j, by simp [bodyGo, nextData, hn]⟩
    | zipErr m =>
      by_cases h10 : 10 ≤ j + 1
      · exact ⟨j, by simp [bodyGo, nextData, hn, h10]⟩
      · obtain ⟨k, hk⟩ := ih (j + 1)
        refine ⟨k, ?_⟩
        have hacc : base * 2 ^ j * 2 :: (geomSleeps base j).reverse
            = (geomSleeps base (j + 1)).reverse := by
          rw [geomSleeps_snoc]
          simp [pow_succ]
          ring_nf
        have hdel : base * 2 ^ j * 2 = base * 2 ^ (j + 1) := by ring
        simp only [bodyGo, nextData, hn, h10, or_false, if_false,
          Bool.true_eq_false, false_or, if_neg]
        rw [hacc, hdel]
        exact hk
    | readErr m =>
      by_cases h10 : 10 ≤ j + 1
      · exact ⟨j, by simp [bodyGo, nextData, hn, h10]⟩
      · obtain ⟨k, hk⟩ := ih (j + 1)
        refine ⟨k, ?_⟩
        have hacc : base * 2 ^ j * 2 :: (geomSleeps base j).reverse
            = (geomSleeps base (j + 1)).reverse := by
          rw [geomSleeps_snoc]
          simp [pow_succ]
          ring_nf
        have hdel : base * 2 ^ j * 2 = base * 2 ^ (j + 1) := by ring
        simp only [bodyGo, nextData, hn, h10, or_false, if_false,
          Bool.true_eq_false, false_or, if_neg]
        rw [hacc, hdel]
        exact hk

/-- Entry point form of the header-loop invariant. -/
theorem hdrGo_sleeps_geom_start (next : Nat → NextRes) (base : Nat) :
    ∃ k, (hdrGo next 10 0 base []).sleeps = geomSleeps base k := by
  have h := hdrGo_sleeps_geom next base 10 0
  simpa [geomSleeps] using h

/-- Entry point form of the body-loop invariant. -/
theorem bodyGo_sleeps_geom_start (bodyF : Nat → BodyRes) (base : Nat) :
    ∃ k, (bodyGo bodyF 10 0 base []).2.1 = geomSleeps base k := by
  have h := bodyGo_sleeps_geom bodyF base 10 0
  simpa [geomSleeps] using h

/-- When every body attempt fails, the body loop yields no data. -/
theorem bodyGo_none (bodyF : Nat → BodyRes) (h4 : ∀ t d, bodyF t ≠ .ok d) :
    ∀ fuel trial delay sleeps, (bodyGo bodyF fuel trial delay sleeps).1 = none := by
  intro fuel
  induction fuel with
  | zero => intro trial delay sleeps; simp [bodyGo]
  | succ f ih =>
    intro trial delay sleeps
    cases hb : bodyF (trial + 1) with
    | ok d => exact absurd hb (h4 _ d)
    | zipEOF => simp [bodyGo, nextData, hb]
    | zipErr m =>
      by_cases h10 : 10 ≤ trial + 1 <;> simp [bodyGo, nextData, hb, h10, ih]
    | readErr m =>
      by_cases h10 : 10 ≤ trial + 1 <;> simp [bodyGo, nextData, hb, h10, ih]

end Storage

/-- C2 (counterexample): with every tar-reader `Next` call failing with an
error whose message contains `"unexpected EOF"`, `NextTest` performs nine
sleeps and invokes `Next` ten times before surfacing the error — refuting, at
this concrete input, the claim that such errors terminate header acquisition
with no sleep and no re-invocation of `Next`. -/
theorem C2_counterexample :
    Storage.strContains "tar: unexpected EOF" "unexpected EOF" = true ∧
    Storage.NextTest (fun _ => .err "tar: unexpected EOF") (fun _ => .ok [1])
        16 1048576
      = ⟨"", none, some (.other "tar: unexpected EOF"),
          [32, 64, 128, 256, 512, 1024, 2048, 4096, 8192], 10, 0⟩ ∧
    ¬ ((Storage.NextTest (fun _ => .err "tar: unexpected EOF") (fun _ => .ok [1])
          16 1048576).sleeps = [] ∧
        (Storage.NextTest (fun _ => .err "tar: unexpected EOF") (fun _ => .ok [1])
          16 1048576).hdrCalls = 1) := by
  refine ⟨by decide, by decide, ?_⟩
  decide

/-- C2 (amended, proved): a header-phase error containing `"unexpected EOF"`
is NOT terminal: like every non-`io.EOF` error it is retried, i.e. `NextTest`
sleeps (first sleep `2·base`) and invokes the tar reader's `Next` at least a
second time.  Only `io.EOF` ends the header phase without retry. -/
theorem C2_unexpected_eof_retried (next : Nat → Storage.NextRes)
    (bodyF : Nat → Storage.BodyRes) (base : Nat) (maxSize : Int) (m : String)
    (h1 : next 1 = .err m)
    (_h2 : Storage.strContains m "unexpected EOF" = true) :
    2 ≤ (Storage.NextTest next bodyF base maxSize).hdrCalls ∧
    (Storage.NextTest next bodyF base maxSize).sleeps.head?
      = some (base * 2) := by
  have step1 : Storage.hdrGo next 10 0 base []
      = Storage.hdrGo next 9 1 (base * 2) [base * 2] := by
    simp [Storage.hdrGo, Storage.nextHeader, h1]
  have hge : 2 ≤ (Storage.hdrGo next 9 1 (base * 2) [base * 2]).trials := by
    have := Storage.hdrGo_trials_succ next 8 1 (base * 2) [base * 2]
    simpa using this
  obtain ⟨r, hr⟩ := Storage.hdrGo_sleeps_acc next 9 1 (base * 2) [base * 2]
  unfold Storage.NextTest
  rw [step1]
  cases hres : Storage.hdrGo next 9 1 (base * 2) [base * 2] with
  | fail e s t =>
    rw [hres] at hge hr
    simp only [Storage.LoopOut.trials] at hge
    simp only [Storage.LoopOut.sleeps, List.reverse_cons, List.reverse_nil,
      List.nil_append, List.singleton_append] at hr
    exact ⟨hge, by simp [hr]⟩
  | ok h s t =>
    rw [hres] at hge hr
    simp only [Storage.LoopOut.trials] at hge
    simp only [Storage.LoopOut.sleeps, List.reverse_cons, List.reverse_nil,
      List.nil_append, List.singleton_append] at hr
    by_cases hs : maxSize < h.Size
    · simp [hs, hge, hr]
    · by_cases htf : h.TypeflagReg = false
      · simp [hs, htf, hge, hr]
      · simp [hs, htf, hge, hr]

/-- C2 witness: the amended theorem applied to the constant
`"tar: unexpected EOF"` failure script with the default 16 ms base. -/
theorem C2_unexpected_eof_retried_witness :
    2 ≤ (Storage.NextTest (fun _ => .err "tar: unexpected EOF")
        (fun _ => .ok [1]) 16 1048576).hdrCalls ∧
    (Storage.NextTest (fun _ => .err "tar: unexpected EOF")
        (fun _ => .ok [1]) 16 1048576).sleeps.head? = some (16 * 2) :=
  C2_unexpected_eof_retried (fun _ => .err "tar: unexpected EOF")
    (fun _ => .ok [1]) 16 1048576 "tar: unexpected EOF" rfl (by decide)

/-- C3 (counterexample): with a regular in-size header and every body attempt
failing with a retryable `"stream error"`, `NextTest` exhausts its ten trials
and then returns the entry name with nil data and a NIL error — refuting the
claim that the error is surfaced to the caller. -/
theorem C3_counterexample :
    Storage.NextTest (fun _ => .hdr ⟨"foo", 5, true⟩)
        (fun _ => .readErr "stream error: x") 16 1048576
      = ⟨"foo", none, none,
          [32, 64, 128, 256, 512, 1024, 2048, 4096, 8192], 1, 10⟩ ∧
    (Storage.NextTest (fun _ => .hdr ⟨"foo", 5, true⟩)
        (fun _ => .readErr "stream error: x") 16 1048576).err = none := by
  constructor <;> decide

/-- C3 (amended, proved): when the header phase succeeds on a regular in-size
entry but every body attempt fails (retryably or not), `NextTest` swallows the
body-phase failure: it returns the entry name, nil data and a nil error
(the `break` in the body loop drops the error). -/
theorem C3_body_error_swallowed (next : Nat → Storage.NextRes)
    (bodyF : Nat → Storage.BodyRes) (base : Nat) (maxSize : Int)
    (h : Storage.Header) (h1 : next 1 = .hdr h) (h2 : h.TypeflagReg = true)
    (h3 : h.Size ≤ maxSize) (h4 : ∀ t d, bodyF t ≠ .ok d) :
    (Storage.NextTest next bodyF base maxSize).name = h.Name ∧
    (Storage.NextTest next bodyF base maxSize).data = none ∧
    (Storage.NextTest next bodyF base maxSize).err = none := by
  have hstep : Storage.hdrGo next 10 0 base [] = .ok h [] 1 := by
    simp [Storage.hdrGo, Storage.nextHeader, h1]
  have hnone := Storage.bodyGo_none bodyF h4 10 0 base []
  unfold Storage.NextTest
  rw [hstep]
  simp [not_lt.mpr h3, h2, hnone]

/-- C3 witness: the amended theorem applied to a concrete gzip entry whose
body read always fails with a stream error. -/
theorem C3_body_error_swallowed_witness :
    (Storage.NextTest (fun _ => .hdr ⟨"foo.gz", 5, true⟩)
        (fun _ => .readErr "stream error") 16 1048576).name = "foo.gz" ∧
    (Storage.NextTest (fun _ => .hdr ⟨"foo.gz", 5, true⟩)
        (fun _ => .readErr "stream error") 16 1048576).data = none ∧
    (Storage.NextTest (fun _ => .hdr ⟨"foo.gz", 5, true⟩)
        (fun _ => .readErr "stream error") 16 1048576).err = none :=
  C3_body_error_swallowed (fun _ => .hdr ⟨"foo.gz", 5, true⟩)
    (fun _ => .readErr "stream error") 16 1048576 ⟨"foo.gz", 5, true⟩
    rfl rfl (by decide) (fun t d hh => by exact absurd hh (by simp))

/-- C5 (counterexample): a single retryable header failure with the default
16 ms base is followed by a 32 ms sleep — the first retry sleep is `2·base`,
not the base delay, refuting the claimed `16, 32, …` sleep sequence. -/
theorem C5_counterexample :
    (Storage.NextTest
        (fun t => if t = 1 then .err "read: connection reset" else .hdr ⟨"a", 3, true⟩)
        (fun _ => .ok [7]) 16 1048576).sleeps = [32] ∧
    ¬ (Storage.NextTest
        (fun t => if t = 1 then .err "read: connection reset" else .hdr ⟨"a", 3, true⟩)
        (fun _ => .ok [7]) 16 1048576).sleeps = [16] := by
  constructor <;> decide

/-- C5 (amended, proved): in both retry loops the delay is doubled *before*
each sleep, so every `NextTest` run sleeps `2·base, 4·base, …, 2^k₁·base` in
the header phase followed by `2·base, 4·base, …, 2^k₂·base` in the body phase;
in particular the first retry sleep of each phase is `2·base`, not `base`. -/
theorem C5_delays_doubled (next : Nat → Storage.NextRes)
    (bodyF : Nat → Storage.BodyRes) (base : Nat) (maxSize : Int) :
    ∃ k₁ k₂, (Storage.NextTest next bodyF base maxSize).sleeps
      = Storage.geomSleeps base k₁ ++ Storage.geomSleeps base k₂ := by
  obtain ⟨k₁, hk₁⟩ := Storage.hdrGo_sleeps_geom_start next base
  obtain ⟨k₂, hk₂⟩ := Storage.bodyGo_sleeps_geom_start bodyF base
  unfold Storage.NextTest
  cases hres : Storage.hdrGo next 10 0 base [] with
  | fail e s t =>
    rw [hres] at hk₁
    simp only [Storage.LoopOut.sleeps] at hk₁
    exact ⟨k₁, 0, by simp [hk₁, Storage.geomSleeps]⟩
  | ok h s t =>
    rw [hres] at hk₁
    simp only [Storage.LoopOut.sleeps] at hk₁
    by_cases hs : maxSize < h.Size
    · exact ⟨k₁, 0, by simp [hs, hk₁, Storage.geomSleeps]⟩
    · by_cases htf : h.TypeflagReg = false
      · exact ⟨k₁, 0, by simp [hs, htf, hk₁, Storage.geomSleeps]⟩
      · exact ⟨k₁, k₂, by simp [hs, htf, hk₁, hk₂]⟩

namespace Dedup

/-- Result of one `job.Status(ctx)` poll inside `WaitForJob` (dedup.go). -/
inductive PollRes
  | pollErr (msg : String)
  | notDone
  | doneOk
  | doneErr (msg : String)
deriving Repr, DecidableEq

/-- Outcome of `WaitForJob`: `ret = none` means the fuel ran out with the job
still running; `ret = some none` models a `nil` return; `ret = some (some m)`
an error return.  `sleeps` lists the executed sleep durations (ms) in order. -/
structure WaitResult where
  ret : Option (Option String)
  sleeps : List Nat
deriving Repr, DecidableEq

/-- The loop of `WaitForJob` (dedup.go):

    backoff := 10 * time.Millisecond
    previous := backoff
    for { status, err := job.Status(ctx)
          if err != nil { return err }
          if status.Done() { if status.Err() != nil { return status.Err() }; break }
          if backoff < maxBackoff { tmp := previous; previous = backoff;
                                    backoff = backoff + tmp }
          time.Sleep(backoff) }

`status p` is the result of the `p`-th poll; `fuel` bounds the otherwise
unbounded loop.  Note the backoff is updated *before* the first sleep. -/
def waitGo (status : Nat → PollRes) (maxBackoff : Nat) :
    Nat → Nat → Nat → Nat → List Nat → WaitResult
  | 0, _, _, _, sleeps => ⟨none, sleeps.reverse⟩
  | fuel + 1, poll, backoff, previous, sleeps =>
    match status poll with
    | .pollErr m => ⟨some (some m), sleeps.reverse⟩
    | .doneErr m => ⟨some (some m), sleeps.reverse⟩
    | .doneOk => ⟨some none, sleeps.reverse⟩
    | .notDone =>
      let b2 := if backoff < maxBackoff then backoff + previous else backoff
      let p2 := if backoff < maxBackoff then backoff else previous
      waitGo status maxBackoff fuel (poll + 1) b2 p2 (b2 :: sleeps)

/-- `WaitForJob(ctx, job, maxBackoff)` of dedup.go, with both `backoff` and
`previous` starting at 10 ms. -/
def WaitForJob (status : Nat → PollRes) (maxBackoff fuel : Nat) : WaitResult :=
  waitGo status maxBackoff fuel 1 10 10 []

/-- A dyadic rational `m · 2^e`.  Every IEEE binary32 value is of this form,
so `float32` arithmetic can be modelled exactly in integer arithmetic (the
rationals in this development stay far from binary32 overflow/subnormals). -/
structure Dy where
  m : Int
  e : Int
deriving Repr, DecidableEq

/-- Exact comparison of two dyadic rationals, by scaling to the smaller
exponent. -/
def Dy.blt (a b : Dy) : Bool :=
  if a.e ≤ b.e then a.m < b.m * 2 ^ (b.e - a.e).toNat
  else a.m * 2 ^ (a.e - b.e).toNat < b.m

/-- Floor base-2 logarithm with explicit fuel; 64 covers every magnitude a Go
int or a float32 product reaches here. -/
def log2fuel : Nat → Nat → Nat
  | 0, _ => 0
  | f + 1, n => if n < 2 then 0 else log2fuel f (n / 2) + 1

/-- Number of bits of `n` (0 for 0). -/
def bitlen (n : Nat) : Nat :=
  if n = 0 then 0 else log2fuel 64 n + 1

/-- Round `m / 2^s` (with `s ≥ 1`) to the nearest integer, ties to even —
the IEEE 754 default rounding. -/
def rshiftRNE (m s : Nat) : Nat :=
  let q := m / 2 ^ s
  let r := m % 2 ^ s
  let half := 2 ^ s / 2
  if r < half then q
  else if half < r then q + 1
  else if q % 2 = 0 then q else q + 1

/-- Round a positive integer significand to at most 24 bits, returning the
rounded significand and the power of two shifted out (value-preserving up to
the rounding). -/
def roundSig24 (m : Nat) : Nat × Nat :=
  let k := bitlen m
  if k ≤ 24 then (m, 0) else (rshiftRNE m (k - 24), k - 24)

/-- Round a dyadic rational to the nearest IEEE binary32 value (24-bit
significand, round-to-nearest ties-to-even). -/
def round32dy (d : Dy) : Dy :=
  if d.m = 0 then ⟨0, 0⟩
  else if 0 < d.m then ⟨(roundSig24 d.m.toNat).1, d.e + (roundSig24 d.m.toNat).2⟩
  else ⟨-(roundSig24 (-d.m).toNat).1, d.e + (roundSig24 (-d.m).toNat).2⟩

/-- Go's `float32(n)` conversion of an integer: round to nearest, ties to
even. -/
def f32ofInt (n : Int) : Dy := round32dy ⟨n, 0⟩

/-- IEEE binary32 multiplication of two exactly-represented values: exact
product, then one rounding. -/
def f32mul (a b : Dy) : Dy := round32dy ⟨a.m * b.m, a.e + b.e⟩

/-- Round `a / b` (positive naturals) to the nearest integer, ties to even. -/
def divRNE (a b : Nat) : Nat :=
  let q := a / b
  let r := a % b
  if 2 * r < b then q
  else if b < 2 * r then q + 1
  else if q % 2 = 0 then q else q + 1

/-- The exponent `e` with `2^e ≤ p/q < 2^(e+1)`, for positive `p q`. -/
def fracExp (p q : Nat) : Int :=
  if q ≤ p then (log2fuel 64 (p / q) : Int)
  else -((log2fuel 64 ((q + p - 1) / p - 1) : Int) + 1)

/-- The nearest binary32 value to the positive fraction `p/q`: how Go converts
an untyped decimal constant to `float32`.  (The exponents arising here are at
most 23, so `23 - e ≥ 0`.) -/
def f32ofFrac (p q : Nat) : Dy :=
  ⟨divRNE (p * 2 ^ (23 - fracExp p q).toNat) q, fracExp p q - 23⟩

/-- The Go constant `0.99` as a `float32` (strictly greater than 99/100). -/
def c99 : Dy := f32ofFrac 99 100

/-- The Go constant `0.95` as a `float32` (strictly less than 95/100). -/
def c95 : Dy := f32ofFrac 95 100

/-- `Detail` of dedup.go (the two grouped-aggregate counts; Go ints). -/
structure Detail where
  TaskFileCount : Int
  TestCount : Int
deriving Repr, DecidableEq

/-- The two sanity-check errors `checkDetails` can return. -/
inductive DedupErr
  | tooFewTasks
  | tooFewTests
deriving Repr, DecidableEq

/-- `checkDetails` of dedup.go with Go `float32` arithmetic modelled exactly:
`float32(src.TaskFileCount) < 0.99*float32(dest.TaskFileCount)` yields
`ErrTooFewTasks`; otherwise
`float32(src.TestCount) < 0.95*float32(dest.TestCount)` yields
`ErrTooFewTests`; otherwise success (`none`).  The two `log.Printf` warning
branches do not affect the result. -/
def checkDetails (srcDetail destDetail : Detail) : Option DedupErr :=
  if (f32ofInt srcDetail.TaskFileCount).blt
      (f32mul c99 (f32ofInt destDetail.TaskFileCount)) then
    some .tooFewTasks
  else if (f32ofInt srcDetail.TestCount).blt
      (f32mul c95 (f32ofInt destDetail.TestCount)) then
    some .tooFewTests
  else none

end Dedup

namespace Dedup

/-- The wait loop only ever appends to the sleeps accumulated so far. -/
theorem waitGo_sleeps_acc (status : Nat → PollRes) (maxB : Nat) :
    ∀ fuel poll backoff previous sleeps, ∃ r,
      (waitGo status maxB fuel poll backoff previous sleeps).sleeps
        = sleeps.reverse ++ r := by
  intro fuel
  induction fuel with
  | zero => intro poll backoff previous sleeps; exact ⟨[], by simp [waitGo]⟩
  | succ f ih =>
    intro poll backoff previous sleeps
    cases hs : status poll with
    | pollErr m => exact ⟨[], by simp [waitGo, hs]⟩
    | doneErr m => exact ⟨[], by simp [waitGo, hs]⟩
    | doneOk => exact ⟨[], by simp [waitGo, hs]⟩
    | notDone =>
      obtain ⟨r, hr⟩ := ih (poll + 1)
        (if backoff < maxB then backoff + previous else backoff)
        (if backoff < maxB then backoff else previous)
        ((if backoff < maxB then backoff + previous else backoff) :: sleeps)
      refine ⟨(if backoff < maxB then backoff + previous else backoff) :: r, ?_⟩
      simp only [waitGo, hs]
      rw [hr]
      simp

/-- Invariant bound on the wait loop's sleeps: as long as `previous ≤ backoff`
and `backoff < 2·maxB` hold on entry, every sleep stays below `2·maxB`
(a sleep may well exceed `maxB` itself). -/
theorem waitGo_sleeps_bound (status : Nat → PollRes) (maxB : Nat) :
    ∀ fuel poll backoff previous sleeps,
      previous ≤ backoff → backoff < 2 * maxB →
      (∀ s ∈ sleeps, s < 2 * maxB) →
      ∀ s ∈ (waitGo status maxB fuel poll backoff previous sleeps).sleeps,
        s < 2 * maxB := by
  intro fuel
  induction fuel with
  | zero =>
    intro poll backoff previous sleeps h1 h2 h3
    simpa [waitGo] using h3
  | succ f ih =>
    intro poll backoff previous sleeps h1 h2 h3
    cases hs : status poll with
    | pollErr m => simpa [waitGo, hs] using h3
    | doneErr m => simpa [waitGo, hs] using h3
    | doneOk => simpa [waitGo, hs] using h3
    | notDone =>
      simp only [waitGo, hs]
      by_cases hb : backoff < maxB
      · simp only [hb, if_true]
        refine ih (poll + 1) (backoff + previous) backoff
          ((backoff + previous) :: sleeps) (by omega) (by omega) ?_
        intro s hsm
        rcases List.mem_cons.mp hsm with h | h
        · omega
        · exact h3 s h
      · simp only [hb, if_false]
        refine ih (poll + 1) backoff previous (backoff :: sleeps) h1 h2 ?_
        intro s hsm
        rcases List.mem_cons.mp hsm with h | h
        · omega
        · exact h3 s h

end Dedup

/-- C4 (counterexample): polling a never-done job with `maxBackoff = 10000` ms,
the first sleep is 20 ms — not the claimed 10 ms — and the fifteenth sleep is
15970 ms, exceeding `maxBackoff`; both halves of the claim fail at this
concrete input. -/
theorem C4_counterexample :
    Dedup.WaitForJob (fun _ => .notDone) 10000 15
      = ⟨none, [20, 30, 50, 80, 130, 210, 340, 550, 890,
                1440, 2330, 3770, 6100, 9870, 15970]⟩ ∧
    (Dedup.WaitForJob (fun _ => .notDone) 10000 15).sleeps.head? ≠ some 10 ∧
    ¬ (∀ s ∈ (Dedup.WaitForJob (fun _ => .notDone) 10000 15).sleeps,
        s ≤ 10000) := by
  refine ⟨by decide, by decide, ?_⟩
  decide

/-- C4 (amended, proved): `WaitForJob` updates the backoff *before* sleeping,
so with `maxBackoff > 10` ms the first sleep (if the job is not yet done) is
20 ms, the delays then follow the sum-of-previous-two rule (20, 30, 50, 80, …),
and growth stops only once the backoff reaches at least `maxBackoff`; each
sleep is bounded by `2·maxBackoff` (exclusive), not by `maxBackoff`. -/
theorem C4_wait_backoff (status : Nat → Dedup.PollRes) (maxBackoff fuel : Nat)
    (hm : 10 < maxBackoff) :
    (∀ s ∈ (Dedup.WaitForJob status maxBackoff fuel).sleeps,
        s < 2 * maxBackoff) ∧
    (status 1 = .notDone → 1 ≤ fuel →
      (Dedup.WaitForJob status maxBackoff fuel).sleeps.head? = some 20) := by
  constructor
  · exact Dedup.waitGo_sleeps_bound status maxBackoff fuel 1 10 10 []
      (le_refl 10) (by omega) (by simp)
  · intro h1 hf
    cases fuel with
    | zero => omega
    | succ f =>
      have step : Dedup.waitGo status maxBackoff (f + 1) 1 10 10 []
          = Dedup.waitGo status maxBackoff f 2 20 10 [20] := by
        simp [Dedup.waitGo, h1, hm]
      obtain ⟨r, hr⟩ := Dedup.waitGo_sleeps_acc status maxBackoff f 2 20 10 [20]
      unfold Dedup.WaitForJob
      rw [step, hr]
      simp

/-- C4 witness: the amended theorem applied to a never-done job with the
production 10 s cap and fuel 3. -/
theorem C4_wait_backoff_witness :
    (∀ s ∈ (Dedup.WaitForJob (fun _ => .notDone) 10000 3).sleeps,
        s < 2 * 10000) ∧
    ((fun _ => Dedup.PollRes.notDone) 1 = Dedup.PollRes.notDone → 1 ≤ 3 →
      (Dedup.WaitForJob (fun _ => .notDone) 10000 3).sleeps.head? = some 20) :=
  C4_wait_backoff (fun _ => .notDone) 10000 3 (by decide)

/-- C6 (counterexample): `checkDetails` compares `float32` values, not exact
rationals.  With `src = 132875548` task files against `dest = 2^27`,
`float32(132875548)` rounds up to `132875552 = 0.99f·2^27`, so `checkDetails`
succeeds even though `132875548 < 0.99·134217728` exactly — refuting the
claimed "succeeds iff `src ≥ 0.99·dest` …" at this input. -/
theorem C6_counterexample :
    Dedup.checkDetails ⟨132875548, 0⟩ ⟨134217728, 0⟩ = none ∧
    100 * (132875548 : Int) < 99 * 134217728 := by
  constructor <;> decide

set_option maxRecDepth 100000 in
/-- C6 (amended, proved): `checkDetails` succeeds iff the two `float32`
comparisons pass; at the magnitudes of the spec's scenarios this coincides with
the exact thresholds `srcTasks ≥ 0.99·destTasks` and `srcTests ≥ 0.95·destTests`
— here proved for every `src ≤ 200` against `dest = 100`: the task check fails
(with `ErrTooFewTasks`, checked first) exactly below 99, and the test check
fails (with `ErrTooFewTests`) exactly below 95 — though not for all counts
(see the counterexample at `dest = 2^27`). -/
theorem C6_checkDetails_small : ∀ a : Nat, a < 201 →
    ((Dedup.checkDetails ⟨(a : Int), 0⟩ ⟨100, 0⟩ = none ↔ 99 ≤ a) ∧
     (a < 99 → Dedup.checkDetails ⟨(a : Int), 0⟩ ⟨100, 0⟩
        = some .tooFewTasks) ∧
     (Dedup.checkDetails ⟨100, (a : Int)⟩ ⟨100, 100⟩ = none ↔ 95 ≤ a) ∧
     (a < 95 → Dedup.checkDetails ⟨100, (a : Int)⟩ ⟨100, 100⟩
        = some .tooFewTests)) := by
  decide

/-- C6 witness: the amended theorem at `a = 95`: 95 task files against 100
yield `ErrTooFewTasks`, while 95 tests against 100 pass the 0.95 threshold. -/
theorem C6_checkDetails_small_witness :
    (Dedup.checkDetails ⟨(95 : Int), 0⟩ ⟨100, 0⟩ = none ↔ 99 ≤ 95) ∧
    (95 < 99 → Dedup.checkDetails ⟨(95 : Int), 0⟩ ⟨100, 0⟩
       = some .tooFewTasks) ∧
    (Dedup.checkDetails ⟨100, (95 : Int)⟩ ⟨100, 100⟩ = none ↔ 95 ≤ 95) ∧
    (95 < 95 → Dedup.checkDetails ⟨100, (95 : Int)⟩ ⟨100, 100⟩
       = some .tooFewTests) :=
  C6_checkDetails_small 95 (by decide)

namespace SwitchP

/-- `civil.Date`: year, month, day. -/
structure CivilDate where
  Year : Int
  Month : Int
  Day : Int
deriving Repr, DecidableEq

/-- `civil.Date.Before`: lexicographic year/month/day comparison. -/
def CivilDate.Before (d d2 : CivilDate) : Bool :=
  if d.Year ≠ d2.Year then d.Year < d2.Year
  else if d.Month ≠ d2.Month then d.Month < d2.Month
  else d.Day < d2.Day

/-- `civil.Date.After`: the reverse of `Before`. -/
def CivilDate.After (d d2 : CivilDate) : Bool := d2.Before d

/-- `discoV2DeploymentDate` of parser/switch.go: 2020-09-09, the DISCOv2
release date. -/
def discoV2DeploymentDate : CivilDate := ⟨2020, 9, 9⟩

/-- `discoV2FixDate` of parser/switch.go: 2022-01-19, when octets.local.rx/tx
were fixed. -/
def discoV2FixDate : CivilDate := ⟨2022, 1, 19⟩

/-- Modelled from the spec: `schema.Sample` is not under src/.  Per the
parser's use, `Timestamp` is an int64, `Value` a float64 (held here as the
exact rational the decoded float denotes) and `Counter` an int64
(`counterField.SetInt(sample.Counter)` requires an int64). -/
structure Sample where
  Timestamp : Int
  Value : ℚ
  Counter : Int
deriving DecidableEq

/-- Modelled from the spec: `schema.SwitchSummary` is not under src/.  Spec
§4.4: the CamelCased metric name selects `<Name>` / `<Name>Counter` int64
fields on the summary via reflection; the claim concerns the
`switch.octets.local.{tx,rx}` metrics, so those two field pairs are
modelled. -/
structure SwitchSummary where
  SwitchOctetsLocalTx : Int
  SwitchOctetsLocalTxCounter : Int
  SwitchOctetsLocalRx : Int
  SwitchOctetsLocalRxCounter : Int
deriving Repr, DecidableEq

/-- Modelled from the spec: `strcase.ToCamel` (external library) — on the
lower-case dotted metric names at issue it upper-cases the first letter of
each dot-separated word and drops the dots. -/
def toCamelChars : Bool → List Char → List Char
  | _, [] => []
  | capNext, c :: cs =>
    if c = '.' then toCamelChars true cs
    else (if capNext then c.toUpper else c) :: toCamelChars false cs

/-- `strcase.ToCamel` on strings. -/
def toCamel (s : String) : String := ⟨toCamelChars true s.data⟩

/-- The reflection lookup-and-write `v.FieldByName(delta).SetInt(dval)` /
`v.FieldByName(delta ++ "Counter").SetInt(cval)` restricted to the modelled
summary fields: `none` when the fields do not exist (`IsValid` fails). -/
def setSummary (camel : String) (dval cval : Int) (s : SwitchSummary) :
    Option SwitchSummary :=
  if camel = "SwitchOctetsLocalTx" then
    some ⟨dval, cval, s.SwitchOctetsLocalRx, s.SwitchOctetsLocalRxCounter⟩
  else if camel = "SwitchOctetsLocalRx" then
    some ⟨s.SwitchOctetsLocalTx, s.SwitchOctetsLocalTxCounter, dval, cval⟩
  else none

/-- `int64(sample.Value)`: Go float64→int64 conversion truncates toward
zero. -/
def truncQ (q : ℚ) : Int := Int.tdiv q.num q.den

/-- `getSummaryFromSample` of parser/switch.go, on the summary record (the
only state it mutates).  Invalid field lookups leave the summary unchanged;
`switch.octets.local.{tx,rx}` samples with archive date strictly between
`discoV2DeploymentDate` and `discoV2FixDate` have delta and counter forced to
0; otherwise the truncated value and the counter are stored. -/
def getSummaryFromSample (metric : String) (sample : Sample)
    (summary : SwitchSummary) (archiveDate : CivilDate) : SwitchSummary :=
  match setSummary (toCamel metric) 0 0 summary,
        setSummary (toCamel metric) (truncQ sample.Value) sample.Counter summary with
  | some zeroed, some stored =>
    if (metric = "switch.octets.local.tx" ∨ metric = "switch.octets.local.rx")
        ∧ archiveDate.After discoV2DeploymentDate = true
        ∧ archiveDate.Before discoV2FixDate = true
    then zeroed else stored
  | _, _ => summary

/-- The summary field the given metric's delta lands in. -/
def deltaField (metric : String) (s : SwitchSummary) : Int :=
  if metric = "switch.octets.local.tx" then s.SwitchOctetsLocalTx
  else s.SwitchOctetsLocalRx

/-- The summary field the given metric's counter lands in. -/
def counterField (metric : String) (s : SwitchSummary) : Int :=
  if metric = "switch.octets.local.tx" then s.SwitchOctetsLocalTxCounter
  else s.SwitchOctetsLocalRxCounter

end SwitchP

/-- C9: for a `switch.octets.local.tx` or `switch.octets.local.rx` sample,
an archive date strictly after 2020-09-09 and strictly before 2022-01-19
forces both the metric's delta field and its counter field to 0, while any
archive date outside that open interval stores the sample's value truncated
to integer and its counter. -/
theorem C9_switch_octets_window (metric : String) (sample : SwitchP.Sample)
    (summary : SwitchP.SwitchSummary) (d : SwitchP.CivilDate)
    (hm : metric = "switch.octets.local.tx" ∨
          metric = "switch.octets.local.rx") :
    ((d.After SwitchP.discoV2DeploymentDate = true ∧
      d.Before SwitchP.discoV2FixDate = true) →
      SwitchP.deltaField metric
          (SwitchP.getSummaryFromSample metric sample summary d) = 0 ∧
      SwitchP.counterField metric
          (SwitchP.getSummaryFromSample metric sample summary d) = 0) ∧
    (¬ (d.After SwitchP.discoV2DeploymentDate = true ∧
        d.Before SwitchP.discoV2FixDate = true) →
      SwitchP.deltaField metric
          (SwitchP.getSummaryFromSample metric sample summary d)
        = SwitchP.truncQ sample.Value ∧
      SwitchP.counterField metric
          (SwitchP.getSummaryFromSample metric sample summary d)
        = sample.Counter) := by
  rcases hm with hm | hm <;> subst hm
  · have hz : SwitchP.setSummary (SwitchP.toCamel "switch.octets.local.tx")
        0 0 summary
        = some ⟨0, 0, summary.SwitchOctetsLocalRx,
            summary.SwitchOctetsLocalRxCounter⟩ := rfl
    have hs : SwitchP.setSummary (SwitchP.toCamel "switch.octets.local.tx")
        (SwitchP.truncQ sample.Value) sample.Counter summary
        = some ⟨SwitchP.truncQ sample.Value, sample.Counter,
            summary.SwitchOctetsLocalRx,
            summary.SwitchOctetsLocalRxCounter⟩ := rfl
    have hmatch : SwitchP.getSummaryFromSample "switch.octets.local.tx"
        sample summary d
        = if ("switch.octets.local.tx" = "switch.octets.local.tx" ∨
              "switch.octets.local.tx" = "switch.octets.local.rx")
            ∧ d.After SwitchP.discoV2DeploymentDate = true
            ∧ d.Before SwitchP.discoV2FixDate = true
          then ⟨0, 0, summary.SwitchOctetsLocalRx,
              summary.SwitchOctetsLocalRxCounter⟩
          else ⟨SwitchP.truncQ sample.Value, sample.Counter,
              summary.SwitchOctetsLocalRx,
              summary.SwitchOctetsLocalRxCounter⟩ := by
      unfold SwitchP.getSummaryFromSample
      rw [hz, hs]
    constructor
    · rintro ⟨h1, h2⟩
      rw [hmatch, if_pos ⟨Or.inl rfl, h1, h2⟩]
      exact ⟨rfl, rfl⟩
    · intro hn
      rw [hmatch, if_neg (fun hC => hn ⟨hC.2.1, hC.2.2⟩)]
      exact ⟨rfl, rfl⟩
  · have hz : SwitchP.setSummary (SwitchP.toCamel "switch.octets.local.rx")
        0 0 summary
        = some ⟨summary.SwitchOctetsLocalTx,
            summary.SwitchOctetsLocalTxCounter, 0, 0⟩ := rfl
    have hs : SwitchP.setSummary (SwitchP.toCamel "switch.octets.local.rx")
        (SwitchP.truncQ sample.Value) sample.Counter summary
        = some ⟨summary.SwitchOctetsLocalTx,
            summary.SwitchOctetsLocalTxCounter,
            SwitchP.truncQ sample.Value, sample.Counter⟩ := rfl
    have hmatch : SwitchP.getSummaryFromSample "switch.octets.local.rx"
        sample summary d
        = if ("switch.octets.local.rx" = "switch.octets.local.tx" ∨
              "switch.octets.local.rx" = "switch.octets.local.rx")
            ∧ d.After SwitchP.discoV2DeploymentDate = true
            ∧ d.Before SwitchP.discoV2FixDate = true
          then ⟨summary.SwitchOctetsLocalTx,
              summary.SwitchOctetsLocalTxCounter, 0, 0⟩
          else ⟨summary.SwitchOctetsLocalTx,
              summary.SwitchOctetsLocalTxCounter,
              SwitchP.truncQ sample.Value, sample.Counter⟩ := by
      unfold SwitchP.getSummaryFromSample
      rw [hz, hs]
    constructor
    · rintro ⟨h1, h2⟩
      rw [hmatch, if_pos ⟨Or.inr rfl, h1, h2⟩]
      exact ⟨rfl, rfl⟩
    · intro hn
      rw [hmatch, if_neg (fun hC => hn ⟨hC.2.1, hC.2.2⟩)]
      exact ⟨rfl, rfl⟩

/-- C9 witness: the theorem applied to a `switch.octets.local.tx` sample of
value 7/2 and counter 9 on the archive date 2021-06-01; both conjuncts are
obtained, the in-window one applying since 2021-06-01 lies inside the open
interval. -/
theorem C9_switch_octets_window_witness :
    ((SwitchP.CivilDate.After ⟨2021, 6, 1⟩ SwitchP.discoV2DeploymentDate = true ∧
      SwitchP.CivilDate.Before ⟨2021, 6, 1⟩ SwitchP.discoV2FixDate = true) →
      SwitchP.deltaField "switch.octets.local.tx"
          (SwitchP.getSummaryFromSample "switch.octets.local.tx"
            ⟨1622505600, 7/2, 9⟩ ⟨1, 2, 3, 4⟩ ⟨2021, 6, 1⟩) = 0 ∧
      SwitchP.counterField "switch.octets.local.tx"
          (SwitchP.getSummaryFromSample "switch.octets.local.tx"
            ⟨1622505600, 7/2, 9⟩ ⟨1, 2, 3, 4⟩ ⟨2021, 6, 1⟩) = 0) ∧
    (¬ (SwitchP.CivilDate.After ⟨2021, 6, 1⟩ SwitchP.discoV2DeploymentDate = true ∧
        SwitchP.CivilDate.Before ⟨2021, 6, 1⟩ SwitchP.discoV2FixDate = true) →
      SwitchP.deltaField "switch.octets.local.tx"
          (SwitchP.getSummaryFromSample "switch.octets.local.tx"
            ⟨1622505600, 7/2, 9⟩ ⟨1, 2, 3, 4⟩ ⟨2021, 6, 1⟩)
        = SwitchP.truncQ (7/2) ∧
      SwitchP.counterField "switch.octets.local.tx"
          (SwitchP.getSummaryFromSample "switch.octets.local.tx"
            ⟨1622505600, 7/2, 9⟩ ⟨1, 2, 3, 4⟩ ⟨2021, 6, 1⟩)
        = 9) :=
  C9_switch_octets_window "switch.octets.local.tx" ⟨1622505600, 7/2, 9⟩
    ⟨1, 2, 3, 4⟩ ⟨2021, 6, 1⟩ (Or.inl rfl)

namespace Sidestream

/-- Go `strings.Split(s, " ")` on char lists (single-char separator): split
around every space, keeping empty fields; `Split("", " ") = [""]`. -/
def splitSp : List Char → List (List Char)
  | [] => [[]]
  | c :: cs =>
    if c = ' ' then [] :: splitSp cs
    else
      match splitSp cs with
      | [] => [[c]]
      | t :: ts => (c :: t) :: ts

/-- `splitSp` never returns the empty list. -/
theorem splitSp_ne_nil (cs : List Char) : ∃ t ts, splitSp cs = t :: ts := by
  induction cs with
  | nil => exact ⟨[], [], rfl⟩
  | cons c cs ih =>
    by_cases hc : c = ' '
    · exact ⟨[], splitSp cs, by simp [splitSp, hc]⟩
    · obtain ⟨t, ts, hts⟩ := ih
      exact ⟨c :: t, ts, by simp [splitSp, hc, hts]⟩

/-- Writing `l[i] = v` on a Go slice: in-bounds writes update the slice,
out-of-bounds writes are a runtime panic (`none`). -/
def setAt (l : List α) (i : Nat) (v : α) : Option (List α) :=
  if i < l.length then some (l.set i v) else none

/-- Result of `ParseKHeader`: a normal return of the names, a normal error
return (`"Corrupted header"`), or a runtime panic. -/
inductive KResult
  | ok (names : List (List Char))
  | err (msg : String)
  | panic
deriving Repr, DecidableEq

/-- The write loop of `ParseKHeader` (sidestream parser):

    for index, name := range web100_vars {
      if index == 0 { continue }
      var_names[index-1] = name
      if mapping[name] != "" { var_names[index-1] = mapping[name] } }

`names` is the current `var_names`; a missing map entry reads as `""`
(`(mapping v).getD []`); an out-of-bounds write panics. -/
def kLoop (mapping : List Char → Option (List Char)) :
    List (List Char) → Nat → List (List Char) → KResult
  | [], _, names => .ok names
  | v :: vs, index, names =>
    if index = 0 then kLoop mapping vs (index + 1) names
    else
      match setAt names (index - 1) v with
      | none => .panic
      | some n1 =>
        if (mapping v).getD [] ≠ [] then
          match setAt n1 (index - 1) ((mapping v).getD []) with
          | none => .panic
          | some n2 => kLoop mapping vs (index + 1) n2
        else kLoop mapping vs (index + 1) n1

/-- `ParseKHeader` of the sidestream parser: `var var_names []string` is never
allocated (a nil slice of length 0); after the `"K:"` check the loop writes
`var_names[index-1]` for every variable token.  `mapping` abstracts the
`web100.ParseWeb100Definitions` table loaded from the `tcp-kis.txt` asset. -/
def ParseKHeader (mapping : List Char → Option (List Char))
    (header : List Char) : KResult :=
  match splitSp header with
  | [] => .err "impossible"
  | w0 :: ws =>
    if w0 = ['K', ':'] then kLoop mapping (w0 :: ws) 0 []
    else .err "Corrupted header"

end Sidestream

/-- C10: for every header consisting of `"K:"` followed by a space and any
tail — in particular `"K:"` plus one or more space-separated variable names —
and every web100 name mapping, `ParseKHeader` panics: the first loop iteration
past the `"K:"` token writes `var_names[0]` into the never-allocated
(length-0) slice, so the function's success branch is unreachable. -/
theorem C10_parseKHeader_panics
    (mapping : List Char → Option (List Char)) (rest : List Char) :
    Sidestream.ParseKHeader mapping (['K', ':', ' '] ++ rest)
      = .panic := by
  have hsplit : Sidestream.splitSp (['K', ':', ' '] ++ rest)
      = ['K', ':'] :: Sidestream.splitSp rest := by
    simp [Sidestream.splitSp]
  obtain ⟨t, ts, hts⟩ := Sidestream.splitSp_ne_nil rest
  rw [hts] at hsplit
  unfold Sidestream.ParseKHeader
  rw [hsplit]
  simp [Sidestream.kLoop, Sidestream.setAt]

namespace EtlPath

/-- `\d` of the regexes. -/
def isDigit (c : Char) : Bool := '0' ≤ c && c ≤ '9'

/-- `[[:alpha:]]` of `mlabN_podNN`. -/
def isAlphaChar (c : Char) : Bool :=
  ('a' ≤ c && c ≤ 'z') || ('A' ≤ c && c ≤ 'Z')

/-- `DataPath` of etl/globals.go: capture groups #2–#8 of `TaskPattern`. -/
structure DataPath where
  Exp1 : String
  DatePath : String
  PackedDate : String
  Host : String
  Pod : String
  Experiment : String
  FileNumber : String
deriving Repr, DecidableEq

/-- All splits `(take n, drop n)` of a list, longest first — the order in
which a greedy `(.*)` offers its match to the rest of the pattern. -/
def starSplits (cs : List Char) : List (List Char × List Char) :=
  ((List.range (cs.length + 1)).reverse).map fun n => (cs.take n, cs.drop n)

/-- `([^/]*)/`: the (slash-free) chars before the first `/`, and the rest
after it; `none` when there is no `/`. -/
def splitSlash : List Char → Option (List Char × List Char)
  | [] => none
  | c :: r =>
    if c = '/' then some ([], r)
    else (splitSlash r).map fun p => (c :: p.1, p.2)

/-- `(?P<datepath>\d{4}/[01]\d/[0123]\d)/` — the date-path segment and its
trailing slash; returns (capture, rest). -/
def parseDatePath : List Char → Option (List Char × List Char)
  | y1 :: y2 :: y3 :: y4 :: '/' :: m1 :: m2 :: '/' :: d1 :: d2 :: '/' :: rest =>
    if isDigit y1 && isDigit y2 && isDigit y3 && isDigit y4 &&
        (m1 = '0' || m1 = '1') && isDigit m2 &&
        (d1 = '0' || d1 = '1' || d1 = '2' || d1 = '3') && isDigit d2 then
      some ([y1, y2, y3, y4, '/', m1, m2, '/', d1, d2], rest)
    else none
  | _ => none

/-- `(\d{4}[01]\d[0123]\d)T\d{6}Z` — the timestamp; returns the captured
`YYYYMMDD` (the packed date) and the rest after the `Z`. -/
def parseDateTime : List Char → Option (List Char × List Char)
  | a :: b :: c :: d :: e :: f :: g :: h ::
      'T' :: t1 :: t2 :: t3 :: t4 :: t5 :: t6 :: 'Z' :: rest =>
    if isDigit a && isDigit b && isDigit c && isDigit d &&
        (e = '0' || e = '1') && isDigit f &&
        (g = '0' || g = '1' || g = '2' || g = '3') && isDigit h &&
        isDigit t1 && isDigit t2 && isDigit t3 &&
        isDigit t4 && isDigit t5 && isDigit t6 then
      some ([a, b, c, d, e, f, g, h], rest)
    else none
  | _ => none

/-- `-(mlab\d)-([[:alpha:]]{3}\d[0-9t])-` — the host and pod tokens; returns
(host, pod, rest). -/
def parseHostPod : List Char → Option (List Char × List Char × List Char)
  | '-' :: 'm' :: 'l' :: 'a' :: 'b' :: n ::
      '-' :: p1 :: p2 :: p3 :: p4 :: p5 :: '-' :: rest =>
    if isDigit n && isAlphaChar p1 && isAlphaChar p2 && isAlphaChar p3 &&
        isDigit p4 && (isDigit p5 || p5 = 't') then
      some (['m', 'l', 'a', 'b', n], [p1, p2, p3, p4, p5], rest)
    else none
  | _ => none

/-- `(?:\.tar|\.tar.gz|\.tgz)$` — note the unescaped `.` in `\.tar.gz`: it
matches any character but a newline. -/
def suffixOK : List Char → Bool
  | ['.', 't', 'a', 'r'] => true
  | ['.', 't', 'g', 'z'] => true
  | ['.', 't', 'a', 'r', c, 'g', 'z'] => c ≠ '\n'
  | _ => false

/-- `(.*)-(\d{4})(?:\.tar|\.tar.gz|\.tgz)$` with greedy `(.*)`: the experiment
name and the four-digit file number at the tail. -/
def parseTail (cs : List Char) : Option (List Char × List Char) :=
  (starSplits cs).findSome? fun p =>
    match p.2 with
    | '-' :: n1 :: n2 :: n3 :: n4 :: sfx =>
      if isDigit n1 && isDigit n2 && isDigit n3 && isDigit n4 &&
          suffixOK sfx then
        some (p.1, [n1, n2, n3, n4])
      else none
    | _ => none

/-- The anchored `TaskPattern` match of etl/globals.go, with Go's
leftmost-first (greedy) preference: `^gs://(?P<prefix>.*)/(?P<exp>[^/]*)/`
then date path, timestamp, host/pod, and the experiment/file-number tail.
Returns the `DataPath` captures #2–#8 (the prefix capture #1 is dropped, as in
`ValidateTestPath`). -/
def taskMatch : List Char → Option DataPath
  | 'g' :: 's' :: ':' :: '/' :: '/' :: rest =>
    (starSplits rest).findSome? fun p =>
      match p.2 with
      | '/' :: r2 =>
        match splitSlash r2 with
        | none => none
        | some (exp, r3) =>
          match parseDatePath r3 with
          | none => none
          | some (dp, r4) =>
            match parseDateTime r4 with
            | none => none
            | some (packed, r5) =>
              match parseHostPod r5 with
              | none => none
              | some (host, pod, r6) =>
                match parseTail r6 with
                | none => none
                | some (expName, fileNo) =>
                  some ⟨⟨exp⟩, ⟨dp⟩, ⟨packed⟩, ⟨host⟩, ⟨pod⟩,
                    ⟨expName⟩, ⟨fileNo⟩⟩
      | _ => none
  | _ => none

/-- `startPattern = ^gs://(.*)/([^/]*)/` holds iff the path begins with
`gs://` and at least two further `/` follow (the greedy `(.*)` may contain
slashes; `([^/]*)` sits between the last two matched slashes). -/
def startMatch : List Char → Bool
  | 'g' :: 's' :: ':' :: '/' :: '/' :: rest => 2 ≤ rest.count '/'
  | _ => false

/-- `endPattern`: the suffix alternation anchored at the end only. -/
def endMatch (cs : List Char) : Bool :=
  suffixOK (cs.drop (cs.length - 4)) || suffixOK (cs.drop (cs.length - 7))

/-- One unanchored position of `podPattern`. -/
def podAt : List Char → Bool
  | '-' :: 'm' :: 'l' :: 'a' :: 'b' :: n ::
      '-' :: p1 :: p2 :: p3 :: p4 :: p5 :: '-' :: _ =>
    isDigit n && isAlphaChar p1 && isAlphaChar p2 && isAlphaChar p3 &&
      isDigit p4 && (isDigit p5 || p5 = 't')
  | _ => false

/-- `podPattern` searched anywhere in the string. -/
def podMatch : List Char → Bool
  | [] => false
  | c :: t => podAt (c :: t) || podMatch t

/-- `ValidateTestPath` of etl/globals.go: return the captures on a full
match, otherwise the most specific of the three diagnostic errors. -/
def ValidateTestPath (path : String) : Except String DataPath :=
  match taskMatch path.data with
  | some d => .ok d
  | none =>
    if startMatch path.data = false then
      .error ("Path should begin with gs://.../.../: " ++ path)
    else if endMatch path.data = false then
      .error ("Path should end in .tar, .tgz, or .tar.gz: " ++ path)
    else if podMatch path.data = false then
      .error ("Path should contain -mlabN-podNN: " ++ path)
    else .error ("Invalid test path: " ++ path)

instance instDecEqExcept {ε α : Type} [DecidableEq ε] [DecidableEq α] :
    DecidableEq (Except ε α) := fun x y =>
  match x, y with
  | .ok a, .ok b => decidable_of_iff (a = b) (by simp)
  | .error a, .error b => decidable_of_iff (a = b) (by simp)
  | .ok _, .error _ => isFalse (by intro hc; exact Except.noConfusion hc)
  | .error _, .ok _ => isFalse (by intro hc; exact Except.noConfusion hc)

/-- The claim's "denotes the same calendar day": the packed `YYYYMMDD` equals
the `YYYY/MM/DD` date path with its slashes removed. -/
def sameCalendarDay (datePath packedDate : String) : Bool :=
  datePath.data.filter (fun c => c ≠ '/') = packedDate.data

end EtlPath

namespace EtlPath

/-- Every star split really splits the input. -/
theorem starSplits_mem {cs : List Char} {p : List Char × List Char}
    (h : p ∈ starSplits cs) : p.1 ++ p.2 = cs := by
  simp only [starSplits, List.mem_map, List.mem_reverse, List.mem_range] at h
  obtain ⟨n, _, rfl⟩ := h
  exact List.take_append_drop n cs

/-- Soundness of `splitSlash`: it splits at a slash. -/
theorem splitSlash_sound :
    ∀ cs a r, splitSlash cs = some (a, r) → cs = a ++ '/' :: r := by
  intro cs
  induction cs with
  | nil => intro a r h; exact absurd h (by simp [splitSlash])
  | cons c t ih =>
    intro a r h
    by_cases hc : c = '/'
    · subst hc
      simp [splitSlash] at h
      rcases h with ⟨rfl, rfl⟩
      rfl
    · simp only [splitSlash, if_neg hc, Option.map_eq_some'] at h
      obtain ⟨⟨a2, r2⟩, hsp, hpr⟩ := h
      injection hpr with h1 h2
      subst h1
      subst h2
      rw [ih a2 r2 hsp]
      rfl

/-- Soundness of `parseDatePath`. -/
theorem parseDatePath_sound {cs dp rest : List Char}
    (h : parseDatePath cs = some (dp, rest)) :
    cs = dp ++ '/' :: rest ∧ dp.length = 10 := by
  unfold parseDatePath at h
  split at h
  · split at h
    · injection h with hpair
      injection hpair with h1 h2
      subst h1
      subst h2
      exact ⟨rfl, rfl⟩
    · exact absurd h (by simp)
  · exact absurd h (by simp)

/-- Soundness of `parseDateTime`. -/
theorem parseDateTime_sound {cs packed rest : List Char}
    (h : parseDateTime cs = some (packed, rest)) :
    (∃ hms, cs = packed ++ 'T' :: hms ++ 'Z' :: rest ∧ hms.length = 6) ∧
      packed.length = 8 := by
  unfold parseDateTime at h
  split at h
  · rename_i a b c d e f g g8 t1 t2 t3 t4 t5 t6 rest2
    split at h
    · injection h with hpair
      injection hpair with h1 h2
      subst h1
      subst h2
      exact ⟨⟨[t1, t2, t3, t4, t5, t6], rfl, rfl⟩, rfl⟩
    · exact absurd h (by simp)
  · exact absurd h (by simp)

/-- Soundness of `parseHostPod`. -/
theorem parseHostPod_sound {cs host pod rest : List Char}
    (h : parseHostPod cs = some (host, pod, rest)) :
    cs = '-' :: host ++ '-' :: pod ++ '-' :: rest ∧
      host.length = 5 ∧ pod.length = 5 := by
  unfold parseHostPod at h
  split at h
  · split at h
    · injection h with hpair
      injection hpair with h1 h23
      injection h23 with h2 h3
      subst h1
      subst h2
      subst h3
      exact ⟨rfl, rfl, rfl⟩
    · exact absurd h (by simp)
  · exact absurd h (by simp)

/-- Soundness of `parseTail`. -/
theorem parseTail_sound {cs expName fileNo : List Char}
    (h : parseTail cs = some (expName, fileNo)) :
    ∃ sfx, cs = expName ++ '-' :: fileNo ++ sfx ∧ fileNo.length = 4 ∧
      suffixOK sfx = true := by
  obtain ⟨p, hmem, hp⟩ := List.exists_of_findSome?_eq_some h
  have hsplit := starSplits_mem hmem
  split at hp
  · rename_i n1 n2 n3 n4 sfx heq
    split at hp
    · rename_i hguard
      injection hp with hpair
      injection hpair with h1 h2
      subst h1
      subst h2
      simp only [Bool.and_eq_true] at hguard
      refine ⟨sfx, ?_, rfl, hguard.2⟩
      rw [← hsplit, heq]
      simp
    · exact absurd hp (by simp)
  · exact absurd hp (by simp)

end EtlPath

namespace EtlPath

/-- Soundness of the anchored `TaskPattern` match: an accepted path decomposes
into `gs://<prefix>/<exp>/<datePath>/<packed>T<hhmmss>Z-<host>-<pod>-<expName>-<fileNo><suffix>`,
the captures being exactly the corresponding segments. -/
theorem taskMatch_sound {cs : List Char} {d : DataPath}
    (h : taskMatch cs = some d) :
    ∃ pre hms sfx,
      cs = 'g' :: 's' :: ':' :: '/' :: '/' ::
        (pre ++ '/' :: d.Exp1.data ++ '/' :: d.DatePath.data ++ '/' ::
          d.PackedDate.data ++ 'T' :: hms ++ 'Z' :: '-' :: d.Host.data ++ '-' ::
          d.Pod.data ++ '-' :: d.Experiment.data ++ '-' ::
          d.FileNumber.data ++ sfx) ∧
      d.DatePath.data.length = 10 ∧ d.PackedDate.data.length = 8 ∧
      hms.length = 6 ∧ suffixOK sfx = true := by
  unfold taskMatch at h
  split at h
  · rename_i rest
    obtain ⟨p, hmem, hp⟩ := List.exists_of_findSome?_eq_some h
    have hpre := starSplits_mem hmem
    split at hp
    · rename_i r2 heq2
      split at hp
      · exact absurd hp (by simp)
      · rename_i exp r3 heq3
        split at hp
        · exact absurd hp (by simp)
        · rename_i dp r4 heq4
          split at hp
          · exact absurd hp (by simp)
          · rename_i packed r5 heq5
            split at hp
            · exact absurd hp (by simp)
            · rename_i host pod r6 heq6
              split at hp
              · exact absurd hp (by simp)
              · rename_i expName fileNo heq7
                injection hp with hd
                subst hd
                have e3 := splitSlash_sound r2 exp r3 heq3
                obtain ⟨e4, _⟩ := parseDatePath_sound heq4
                obtain ⟨⟨hms, e5, hms6⟩, p8⟩ := parseDateTime_sound heq5
                obtain ⟨e6, _, _⟩ := parseHostPod_sound heq6
                obtain ⟨sfx, e7, _, hsfx⟩ := parseTail_sound heq7
                refine ⟨p.1, hms, sfx, ?_, ?_, ?_, hms6, hsfx⟩
                · rw [← hpre, heq2, e3, e4, e5, e6, e7]
                  simp
                · simpa using (parseDatePath_sound heq4).2
                · simpa using p8
    · exact absurd hp (by simp)
  · exact absurd h (by simp)

/-- An `ok` result of `ValidateTestPath` comes from a full `TaskPattern`
match. -/
theorem ValidateTestPath_ok {s : String} {d : DataPath}
    (h : ValidateTestPath s = .ok d) : taskMatch s.data = some d := by
  unfold ValidateTestPath at h
  split at h
  · rename_i d2 heq
    injection h with h1
    rw [← h1]
    exact heq
  · exfalso
    split at h
    · exact Except.noConfusion h
    · split at h
      · exact Except.noConfusion h
      · split at h
        · exact Except.noConfusion h
        · exact Except.noConfusion h

end EtlPath

/-- C1 (counterexample): the URI
`gs://m-lab-sandbox/ndt/2016/01/26/20990909T000000Z-mlab1-prg01-ndt-0007.tgz`,
whose embedded date path (2016/01/26) and timestamp date (20990909) disagree,
is nevertheless accepted — `TaskPattern` has no cross-check — and the returned
packed date does not denote the date path's calendar day. -/
theorem C1_counterexample :
    EtlPath.ValidateTestPath
        "gs://m-lab-sandbox/ndt/2016/01/26/20990909T000000Z-mlab1-prg01-ndt-0007.tgz"
      = .ok ⟨"ndt", "2016/01/26", "20990909", "mlab1", "prg01", "ndt",
          "0007"⟩ ∧
    EtlPath.sameCalendarDay "2016/01/26" "20990909" = false := by
  constructor <;> decide

/-- C1 (amended, proved): whenever `ValidateTestPath` accepts a URI, the
returned `DataPath` is a positional decomposition of the URI — `DatePath` is
its `YYYY/MM/DD` path segment and `PackedDate` the eight-digit date token of
the timestamp that follows — but validation imposes no same-calendar-day
relation between the two (the counterexample shows they can differ). -/
theorem C1_path_decomposition (s : String) (d : EtlPath.DataPath)
    (h : EtlPath.ValidateTestPath s = .ok d) :
    ∃ pre hms sfx,
      s.data = 'g' :: 's' :: ':' :: '/' :: '/' ::
        (pre ++ '/' :: d.Exp1.data ++ '/' :: d.DatePath.data ++ '/' ::
          d.PackedDate.data ++ 'T' :: hms ++ 'Z' :: '-' :: d.Host.data ++ '-' ::
          d.Pod.data ++ '-' :: d.Experiment.data ++ '-' ::
          d.FileNumber.data ++ sfx) ∧
      d.DatePath.data.length = 10 ∧ d.PackedDate.data.length = 8 ∧
      hms.length = 6 ∧ EtlPath.suffixOK sfx = true :=
  EtlPath.taskMatch_sound (EtlPath.ValidateTestPath_ok h)

/-- C1 witness: the decomposition applied to the repository's own success test
vector (whose date path and timestamp do agree). -/
theorem C1_path_decomposition_witness :
    ∃ pre hms sfx,
      ("gs://m-lab-sandbox/ndt/2016/01/26/20160126T000000Z-mlab1-prg01-ndt-0007.tgz" : String).data
        = 'g' :: 's' :: ':' :: '/' :: '/' ::
          (pre ++ '/' :: ("ndt" : String).data ++ '/' ::
            ("2016/01/26" : String).data ++ '/' ::
            ("20160126" : String).data ++ 'T' :: hms ++ 'Z' :: '-' ::
            ("mlab1" : String).data ++ '-' :: ("prg01" : String).data ++ '-' ::
            ("ndt" : String).data ++ '-' ::
            ("0007" : String).data ++ sfx) ∧
      ("2016/01/26" : String).data.length = 10 ∧
      ("20160126" : String).data.length = 8 ∧
      hms.length = 6 ∧ EtlPath.suffixOK sfx = true :=
  C1_path_decomposition
    "gs://m-lab-sandbox/ndt/2016/01/26/20160126T000000Z-mlab1-prg01-ndt-0007.tgz"
    ⟨"ndt", "2016/01/26", "20160126", "mlab1", "prg01", "ndt", "0007"⟩
    (by decide)
